import Mathlib

/-!
Verification development for the surface-embedded curve subsystem of the
polyscope repository (`src/surface_input_curve_quantity.cpp`).

The file embeds, as executable Lean definitions:
  * the persistence serializer `SurfaceInputCurveQuantity::writeToFile`,
    translated line by line from the source;
  * the pick-handling step of `SurfaceInputCurveQuantity::userEditCallback`;
  * the global-state save/restore discipline of
    `SurfaceInputCurveQuantity::userEdit`;
  * the curve editor operations of `MeshEmbeddedCurve` (`tryExtendBack`,
    `removeLastEndpoint`, `closeCurve`, `clearCurve`) and the cross-mesh
    transfer (`copy` / `copyBack`), whose implementations live outside this
    repository snapshot and are therefore modelled from the specification.
-/

namespace Polyscope

/-- A 3D position.  Coordinates are treated as opaque data: the claims under
verification concern the structure of the serialized output and of the curve
operations, never coordinate arithmetic. -/
structure Vector3 where
  x : Int
  y : Int
  z : Int
deriving DecidableEq, Repr

/-- One straight curve segment confined to a single face, as in the
`CurveSegment` record: owning face handle plus 3D start and end positions. -/
structure CurveSegment where
  face : Nat
  startPosition : Vector3
  endPosition : Vector3
deriving DecidableEq, Repr

/-- Modelled from the spec: the state of a `MeshEmbeddedCurve`
(the class itself is not part of this repository snapshot; only its callers
are).  It owns an ordered sequence of segments, an optional pending anchor
(the sole starting point recorded before the first full segment exists), and
an explicit closedness flag. -/
structure MeshEmbeddedCurve where
  segments : List CurveSegment
  anchor : Option (Nat × Vector3)
  closed : Bool
deriving DecidableEq, Repr

/-- The `isClosed` query: the explicit closedness flag. -/
def MeshEmbeddedCurve.isClosed (c : MeshEmbeddedCurve) : Bool := c.closed

/-- The `isEmpty` query: no segments and no pending anchor. -/
def MeshEmbeddedCurve.isEmpty (c : MeshEmbeddedCurve) : Bool :=
  c.segments.isEmpty && c.anchor.isNone

/-- The canonical empty curve (state `Empty`). -/
def MeshEmbeddedCurve.empty : MeshEmbeddedCurve :=
  { segments := [], anchor := none, closed := false }

/-! ## Persistence: `writeToFile`

`SurfaceInputCurveQuantity::writeToFile` streams a plain-text file.  We embed
each emitted line as a structured token (`FileLine`); coordinate formatting is
presentation and carries no logic. -/

/-- One line of the persistence file written by `writeToFile`. -/
inductive FileLine where
  | pointsHeader (n : Nat)
  | point (p : Vector3)
  | linesHeader (m : Nat)
  | indexPair (i : Nat) (j : Nat)
deriving DecidableEq, Repr

/-- The zero-based index pairs recorded in `segInds` by the closed-curve
branch of `writeToFile`: pair `(i, (i+1) mod n)` for each segment index. -/
def closedSegInds (n : Nat) : List (Nat × Nat) :=
  (List.range n).map (fun i => (i, (i + 1) % n))

/-- The zero-based index pairs recorded in `segInds` by the open-curve branch
of `writeToFile`: pair `(i, i+1)` for each segment index. -/
def openSegInds (n : Nat) : List (Nat × Nat) :=
  (List.range n).map (fun i => (i, i + 1))

/-- The lines emitted by `writeToFile`, translated from the source.

Closed branch: `# points: size`, then one line per segment with its
`startPosition`, then `# lines: size` and the wrapping index pairs.

Open branch: `# points: size + 1`, the start positions, then
`segments.back().endPosition` — calling `back()` on an empty vector is
undefined behaviour, which the embedding makes explicit by returning `none`
when the open branch would perform that access. -/
def writeToFile (c : MeshEmbeddedCurve) : Option (List FileLine) :=
  let segments := c.segments
  if c.isClosed then
    some ([FileLine.pointsHeader segments.length]
      ++ segments.map (fun s => FileLine.point s.startPosition)
      ++ [FileLine.linesHeader (closedSegInds segments.length).length]
      ++ (closedSegInds segments.length).map (fun p => FileLine.indexPair p.1 p.2))
  else
    match segments.getLast? with
    | none => none
    | some lastSeg =>
      some ([FileLine.pointsHeader (segments.length + 1)]
        ++ segments.map (fun s => FileLine.point s.startPosition)
        ++ [FileLine.point lastSeg.endPosition]
        ++ [FileLine.linesHeader (openSegInds segments.length).length]
        ++ (openSegInds segments.length).map (fun p => FileLine.indexPair p.1 p.2))

/-- The curve's vertices in traversal order: every segment's start position,
and for an open curve additionally the final segment's end position. -/
def traversalVertices (c : MeshEmbeddedCurve) : List Vector3 :=
  c.segments.map (fun s => s.startPosition)
    ++ (if c.isClosed then []
        else match c.segments.getLast? with
             | none => []
             | some s => [s.endPosition])

/-! ## Curve editor operations

`MeshEmbeddedCurve::tryExtendBack`, `removeLastEndpoint`, `closeCurve` and
`clearCurve` are called from `userEditCallback` but implemented outside this
repository snapshot; they are modelled from the specification's component
design (spec section 4.3). -/

/-- Editing / transfer error kinds named by the specification. -/
inductive EditError where
  | DisconnectedPick
  | InvalidClosure
  | NotFound
  | TransferUnresolvable
deriving DecidableEq, Repr

/-- Modelled from the spec: the read-only mesh queries the editor consumes
(spec section 6).  `adjacent a b` answers whether faces `a` and `b` share
an edge or vertex; `crossesThird` answers whether the straight segment
between two located points would have to cross a third face;
`sharedFace p q` yields a face containing both points when one exists. -/
structure Mesh where
  adjacent : Nat → Nat → Bool
  crossesThird : (Nat × Vector3) → (Nat × Vector3) → Bool
  sharedFace : Vector3 → Vector3 → Option Nat

/-- The curve's current back endpoint with its face context: the last
segment's end, or the pending anchor when no segment exists. -/
def MeshEmbeddedCurve.backEndpoint (c : MeshEmbeddedCurve) :
    Option (Nat × Vector3) :=
  match c.segments.getLast? with
  | some s => some (s.face, s.endPosition)
  | none => c.anchor

/-- Modelled from the spec: `MeshEmbeddedCurve::tryExtendBack` (spec
section 4.3).  A closed curve is immutable to extension: the call is a silent
no-op.  On an empty curve the candidate point becomes the pending anchor.
Otherwise a single segment is appended from the current back endpoint to the
candidate point: directly when the candidate face equals the back endpoint's
face, and when the faces differ only if they are adjacent and the straight
segment does not cross a third face; else the call fails with
`DisconnectedPick`. -/
def tryExtendBack (m : Mesh) (f : Nat) (p : Vector3)
    (c : MeshEmbeddedCurve) : Except EditError MeshEmbeddedCurve :=
  if c.isClosed then
    Except.ok c
  else
    match c.backEndpoint with
    | none => Except.ok { segments := [], anchor := some (f, p), closed := false }
    | some (bf, bp) =>
      if f = bf then
        Except.ok { segments := c.segments ++ [⟨f, bp, p⟩], anchor := none,
                    closed := false }
      else if m.adjacent bf f && !(m.crossesThird (bf, bp) (f, p)) then
        Except.ok { segments := c.segments ++ [⟨f, bp, p⟩], anchor := none,
                    closed := false }
      else
        Except.error EditError.DisconnectedPick

/-- Modelled from the spec: `MeshEmbeddedCurve::removeLastEndpoint` (spec
section 4.3).  Pops the most recent segment, or the pending anchor when only
one point exists; a no-op on an already empty curve; the resulting state is
never `Closed`. -/
def removeLastEndpoint (c : MeshEmbeddedCurve) : MeshEmbeddedCurve :=
  match c.segments with
  | [] =>
    match c.anchor with
    | some _ => MeshEmbeddedCurve.empty
    | none => c
  | _ :: _ =>
    { segments := c.segments.dropLast, anchor := none, closed := false }

/-- Modelled from the spec: `MeshEmbeddedCurve::closeCurve` (spec
section 4.3).  Valid only when the curve is open with at least one full
segment and its first start point and last end point lie in a common face;
then the closing segment is appended and the curve becomes closed.  Fails
with `InvalidClosure` otherwise. -/
def closeCurve (m : Mesh) (c : MeshEmbeddedCurve) :
    Except EditError MeshEmbeddedCurve :=
  if c.isClosed then
    Except.error EditError.InvalidClosure
  else
    match c.segments, c.segments.getLast? with
    | s0 :: _, some sLast =>
      match m.sharedFace s0.startPosition sLast.endPosition with
      | some f =>
        Except.ok { segments :=
                      c.segments ++ [⟨f, sLast.endPosition, s0.startPosition⟩],
                    anchor := none, closed := true }
      | none => Except.error EditError.InvalidClosure
    | _, _ => Except.error EditError.InvalidClosure

/-- Modelled from the spec: `MeshEmbeddedCurve::clearCurve` (spec
section 4.3).  Unconditionally resets to the empty state. -/
def clearCurve (_c : MeshEmbeddedCurve) : MeshEmbeddedCurve :=
  MeshEmbeddedCurve.empty

/-- The state of the curve after an editing call, as seen by the caller in
`userEditCallback`: the new curve on success, the unchanged old curve on
failure. -/
def editStepCurve (r : Except EditError MeshEmbeddedCurve)
    (c : MeshEmbeddedCurve) : MeshEmbeddedCurve :=
  match r with
  | Except.ok c2 => c2
  | Except.error _ => c

/-! ## Cross-mesh transfer

`getCurve` returns `curve.copy(parent->transfer, parent->originalGeometry)`
and `setCurve` installs `newCurve.copyBack(parent->transfer,
parent->geometry)`; the transfer implementation is outside this repository
snapshot and is modelled from spec section 4.4. -/

/-- Modelled from the spec: transfer of one 3D point across the mesh
correspondence — the correspondence yields the corresponding 3D position and
the target mesh's locator re-resolves it to a located point (face plus
position), possibly in a different face, or fails (`NotFound`).  The whole
composite is an `Option`-valued map from positions to located points. -/
def TransferMap : Type := Vector3 → Option (Nat × Vector3)

/-- Modelled from the spec: transfer of one segment, each endpoint
transferred independently; the transferred segment lives in the face the
start point resolves to. -/
def transferSegment (t : TransferMap) (s : CurveSegment) :
    Option CurveSegment :=
  match t s.startPosition, t s.endPosition with
  | some (fa, p), some (_, q) => some ⟨fa, p, q⟩
  | _, _ => none

/-- Modelled from the spec: transfer of the segment sequence; fails as soon
as any endpoint is unresolvable (atomic failure, no partial curve). -/
def transferSegments (t : TransferMap) :
    List CurveSegment → Option (List CurveSegment)
  | [] => some []
  | s :: rest =>
    match transferSegment t s, transferSegments t rest with
    | some s2, some rest2 => some (s2 :: rest2)
    | _, _ => none

/-- Modelled from the spec: transfer of the optional pending anchor. -/
def transferAnchor (t : TransferMap) :
    Option (Nat × Vector3) → Option (Option (Nat × Vector3))
  | none => some none
  | some a =>
    match t a.2 with
    | some b => some (some b)
    | none => none

/-- Modelled from the spec: `MeshEmbeddedCurve::copy` / `copyBack`
(spec section 4.4) — transfers every endpoint independently, preserves
segment count, ordering and closedness, and fails atomically with no curve
produced when any point is unresolvable. -/
def transferCurve (t : TransferMap) (c : MeshEmbeddedCurve) :
    Option MeshEmbeddedCurve :=
  match transferSegments t c.segments, transferAnchor t c.anchor with
  | some segs, some a => some { segments := segs, anchor := a, closed := c.closed }
  | _, _ => none

/-- The 3D positions a curve depends on: both endpoints of every segment
and the pending anchor's position. -/
def curvePositions (c : MeshEmbeddedCurve) : List Vector3 :=
  c.segments.flatMap (fun s => [s.startPosition, s.endPosition])
    ++ (match c.anchor with | some a => [a.2] | none => [])

/-! ## `userEditCallback` pick handling

From the source: `parent->getPickedFacePoint(fClick, bCoord)` yields a face
handle that may be the null `FacePtr()` (the locator placed no point on any
face); only when the handle is non-null are `tryExtendBack` and the buffer
invalidation executed. -/

/-- Result of one pick-processing step of `userEditCallback`: the curve
after the step, the buffer-stale flag, and whether `tryExtendBack` was
invoked. -/
structure PickStepResult where
  curve : MeshEmbeddedCurve
  bufferStale : Bool
  extendInvoked : Bool
deriving DecidableEq, Repr

/-- The pick-processing step of `userEditCallback` (source lines 150-163),
given the pick result delivered by `getPickedFacePoint`: `none` embeds the
null `FacePtr()`.  On a null handle nothing runs; otherwise
`curve.tryExtendBack(fClick, bCoord)` is invoked (the curve keeping its old
state when the extension fails) and `bufferStale` is set. -/
def userEditPickStep (m : Mesh) (pick : Option (Nat × Vector3))
    (c : MeshEmbeddedCurve) (bufferStale : Bool) : PickStepResult :=
  match pick with
  | none => { curve := c, bufferStale := bufferStale, extendInvoked := false }
  | some (f, p) =>
    { curve := editStepCurve (tryExtendBack m f p c) c,
      bufferStale := true, extendInvoked := true }

/-! ## `userEdit` global-state discipline

`userEdit` (source lines 106-131) sets `enabled = true`, saves the current
ImGui context and `pick::alwaysEvaluatePick`, installs a fresh context and
sets the flag, spins the nested main loop, then writes the saved values
back.  We embed the globals as a record and the whole nested loop as an
arbitrary state transformer. -/

/-- The global state read and written by `userEdit`: the process-wide
`pick::alwaysEvaluatePick` flag, the current ImGui context (as a handle),
the quantity's `enabled` flag, and the curve the nested loop may edit. -/
structure EditGlobals where
  alwaysEvaluatePick : Bool
  currentContext : Nat
  enabled : Bool
  curve : MeshEmbeddedCurve
deriving DecidableEq, Repr

/-- The state `userEdit` hands to its nested main loop: `enabled` forced to
`true`, the fresh ImGui context made current, and `alwaysEvaluatePick` set. -/
def userEditPreLoop (newContext : Nat) (g : EditGlobals) : EditGlobals :=
  { g with enabled := true, currentContext := newContext,
           alwaysEvaluatePick := true }

/-- The embedding of `SurfaceInputCurveQuantity::userEdit` as a state transformer: the saved
`oldContext` and `oldAlwaysPick` are read before the loop runs and written
back after it, while `enabled` is set at entry and never restored.  `body`
stands for the entire nested `mainLoopIteration` loop. -/
def userEdit (body : EditGlobals → EditGlobals) (newContext : Nat)
    (g : EditGlobals) : EditGlobals :=
  let oldContext := g.currentContext
  let oldAlwaysPick := g.alwaysEvaluatePick
  let gLoop := body (userEditPreLoop newContext g)
  { gLoop with alwaysEvaluatePick := oldAlwaysPick, currentContext := oldContext }

/-! ## Serialization structure lemmas -/

/-- The points section of the file: the count header followed by the
traversal-order vertices. -/
def pointsSection (c : MeshEmbeddedCurve) : List FileLine :=
  FileLine.pointsHeader (traversalVertices c).length
    :: (traversalVertices c).map FileLine.point

/-- The index pairs the serializer records for the given curve. -/
def segIndPairs (c : MeshEmbeddedCurve) : List (Nat × Nat) :=
  if c.isClosed then closedSegInds c.segments.length
  else openSegInds c.segments.length

/-- The lines section of the file: the count header followed by the index
pairs. -/
def linesSection (c : MeshEmbeddedCurve) : List FileLine :=
  FileLine.linesHeader (segIndPairs c).length
    :: (segIndPairs c).map (fun p => FileLine.indexPair p.1 p.2)

lemma length_closedSegInds (n : Nat) : (closedSegInds n).length = n := by
  simp [closedSegInds]

lemma length_openSegInds (n : Nat) : (openSegInds n).length = n := by
  simp [openSegInds]

lemma traversalVertices_closed (c : MeshEmbeddedCurve)
    (h : c.isClosed = true) :
    traversalVertices c = c.segments.map (fun s => s.startPosition) := by
  simp [traversalVertices, h]

lemma traversalVertices_open (c : MeshEmbeddedCurve) (sLast : CurveSegment)
    (h : c.isClosed = false) (hl : c.segments.getLast? = some sLast) :
    traversalVertices c
      = c.segments.map (fun s => s.startPosition) ++ [sLast.endPosition] := by
  simp [traversalVertices, h, hl]

lemma writeToFile_eq_sections (c : MeshEmbeddedCurve)
    (h : c.isClosed = true ∨ c.segments ≠ []) :
    writeToFile c = some (pointsSection c ++ linesSection c) := by
  by_cases hc : c.isClosed = true
  · simp [writeToFile, hc, pointsSection, linesSection, segIndPairs,
      traversalVertices_closed c hc, length_closedSegInds]
  · have hb : c.isClosed = false := by simpa using hc
    have hne : c.segments ≠ [] := by
      rcases h with h | h
      · exact absurd h hc
      · exact h
    obtain ⟨sLast, hl⟩ : ∃ s, c.segments.getLast? = some s := by
      cases hgl : c.segments.getLast? with
      | none => exact absurd (List.getLast?_eq_none_iff.mp hgl) hne
      | some s => exact ⟨s, rfl⟩
    have hlen : (traversalVertices c).length = c.segments.length + 1 := by
      simp [traversalVertices_open c sLast hb hl]
    simp [writeToFile, hb, hl, pointsSection, linesSection, segIndPairs,
      traversalVertices_open c sLast hb hl, length_openSegInds, hlen]

lemma closedSegInds_getElem (n i : Nat) (h : i < n) :
    (closedSegInds n)[i]? = some (i, (i + 1) % n) := by
  simp [closedSegInds, List.getElem?_range, h]

lemma openSegInds_getElem (n i : Nat) (h : i < n) :
    (openSegInds n)[i]? = some (i, i + 1) := by
  simp [openSegInds, List.getElem?_range, h]

/-! ## Concrete sample data for witnesses -/

/-- Segment of a sample triangle, in face 0. -/
def segA : CurveSegment := ⟨0, ⟨0, 0, 0⟩, ⟨1, 0, 0⟩⟩

/-- Segment of a sample triangle, in face 1. -/
def segB : CurveSegment := ⟨1, ⟨1, 0, 0⟩, ⟨0, 1, 0⟩⟩

/-- Segment of a sample triangle, in face 2. -/
def segC : CurveSegment := ⟨2, ⟨0, 1, 0⟩, ⟨0, 0, 0⟩⟩

/-- A concrete closed curve with three segments. -/
def closedTri : MeshEmbeddedCurve := ⟨[segA, segB, segC], none, true⟩

/-- A concrete open curve with two segments. -/
def openTwo : MeshEmbeddedCurve := ⟨[segA, segB], none, false⟩

/-- A concrete mesh on faces 0-3: consecutively numbered faces are
adjacent, no segment crosses a third face, and two points share a face
exactly when a face number can be read off both (here: always face 0). -/
def meshSample : Mesh :=
  { adjacent := fun a b => (a + 1 = b) || (b + 1 = a),
    crossesThird := fun _ _ => false,
    sharedFace := fun _ _ => some 0 }

/-! ## Claim theorems -/

/-- C1: for every curve serialized by `writeToFile` (every curve on which
the serialization is defined: closed, or open with at least one segment),
the file begins with the count line for N followed by the N vertices in
traversal order, where N is the segment count for a closed curve and the
segment count plus one for an open curve, whose final endpoint is written
exactly once after all segment start points. -/
theorem writeToFile_points_section (c : MeshEmbeddedCurve)
    (h : c.isClosed = true ∨ c.segments ≠ []) :
    ∃ rest, writeToFile c
        = some (FileLine.pointsHeader (traversalVertices c).length
            :: ((traversalVertices c).map FileLine.point ++ rest))
      ∧ (c.isClosed = true →
          (traversalVertices c).length = c.segments.length
          ∧ traversalVertices c = c.segments.map (fun s => s.startPosition))
      ∧ (c.isClosed = false →
          ∃ sLast, c.segments.getLast? = some sLast
            ∧ (traversalVertices c).length = c.segments.length + 1
            ∧ traversalVertices c
                = c.segments.map (fun s => s.startPosition)
                    ++ [sLast.endPosition]) := by
  refine ⟨linesSection c, ?_, ?_, ?_⟩
  · simpa [pointsSection] using writeToFile_eq_sections c h
  · intro hc
    constructor
    · simp [traversalVertices_closed c hc]
    · exact traversalVertices_closed c hc
  · intro hb
    have hne : c.segments ≠ [] := by
      rcases h with h | h
      · rw [h] at hb; cases hb
      · exact h
    obtain ⟨sLast, hl⟩ : ∃ s, c.segments.getLast? = some s := by
      cases hgl : c.segments.getLast? with
      | none => exact absurd (List.getLast?_eq_none_iff.mp hgl) hne
      | some s => exact ⟨s, rfl⟩
    refine ⟨sLast, hl, ?_, traversalVertices_open c sLast hb hl⟩
    simp [traversalVertices_open c sLast hb hl]

/-- C1 witness: the theorem applied to a concrete closed triangle curve. -/
theorem writeToFile_points_section_witness :
    (closedTri.isClosed = true ∨ closedTri.segments ≠ [])
    ∧ (∃ rest, writeToFile closedTri
        = some (FileLine.pointsHeader (traversalVertices closedTri).length
            :: ((traversalVertices closedTri).map FileLine.point ++ rest))
      ∧ (closedTri.isClosed = true →
          (traversalVertices closedTri).length = closedTri.segments.length
          ∧ traversalVertices closedTri
              = closedTri.segments.map (fun s => s.startPosition))
      ∧ (closedTri.isClosed = false →
          ∃ sLast, closedTri.segments.getLast? = some sLast
            ∧ (traversalVertices closedTri).length
                = closedTri.segments.length + 1
            ∧ traversalVertices closedTri
                = closedTri.segments.map (fun s => s.startPosition)
                    ++ [sLast.endPosition])) :=
  ⟨Or.inl rfl, writeToFile_points_section closedTri (Or.inl rfl)⟩

/-- C2: after the points section the file contains the count line for M
followed by the M index pairs, one per segment, which wrap as
(i, (i+1) mod N) for a closed curve and run sequentially as (i, i+1) for an
open curve; a closed 3-segment curve writes exactly 0,1 then 1,2 then
2,0. -/
theorem writeToFile_lines_section (c : MeshEmbeddedCurve)
    (h : c.isClosed = true ∨ c.segments ≠ []) :
    ∃ ls, writeToFile c = some ls
      ∧ ls = pointsSection c
          ++ FileLine.linesHeader (segIndPairs c).length
            :: (segIndPairs c).map (fun p => FileLine.indexPair p.1 p.2)
      ∧ (segIndPairs c).length = c.segments.length
      ∧ (c.isClosed = true → ∀ i, i < c.segments.length →
          (segIndPairs c)[i]? = some (i, (i + 1) % c.segments.length))
      ∧ (c.isClosed = false → ∀ i, i < c.segments.length →
          (segIndPairs c)[i]? = some (i, i + 1))
      ∧ (c.isClosed = true → c.segments.length = 3 →
          (segIndPairs c).map (fun p => FileLine.indexPair p.1 p.2)
            = [FileLine.indexPair 0 1, FileLine.indexPair 1 2,
               FileLine.indexPair 2 0]) := by
  refine ⟨pointsSection c ++ linesSection c, writeToFile_eq_sections c h,
    rfl, ?_, ?_, ?_, ?_⟩
  · by_cases hc : c.isClosed = true
    · simp [segIndPairs, hc, length_closedSegInds]
    · simp only [Bool.not_eq_true] at hc
      simp [segIndPairs, hc, length_openSegInds]
  · intro hc i hi
    simp [segIndPairs, hc, closedSegInds_getElem _ _ hi]
  · intro hb i hi
    simp [segIndPairs, hb, openSegInds_getElem _ _ hi]
  · intro hc h3
    simp [segIndPairs, hc, h3, closedSegInds, List.range_succ]

/-- C2 witness: the theorem applied to the concrete closed triangle. -/
theorem writeToFile_lines_section_witness :
    (closedTri.isClosed = true ∨ closedTri.segments ≠ [])
    ∧ (∃ ls, writeToFile closedTri = some ls
      ∧ ls = pointsSection closedTri
          ++ FileLine.linesHeader (segIndPairs closedTri).length
            :: (segIndPairs closedTri).map (fun p => FileLine.indexPair p.1 p.2)
      ∧ (segIndPairs closedTri).length = closedTri.segments.length
      ∧ (closedTri.isClosed = true → ∀ i, i < closedTri.segments.length →
          (segIndPairs closedTri)[i]?
            = some (i, (i + 1) % closedTri.segments.length))
      ∧ (closedTri.isClosed = false → ∀ i, i < closedTri.segments.length →
          (segIndPairs closedTri)[i]? = some (i, i + 1))
      ∧ (closedTri.isClosed = true → closedTri.segments.length = 3 →
          (segIndPairs closedTri).map (fun p => FileLine.indexPair p.1 p.2)
            = [FileLine.indexPair 0 1, FileLine.indexPair 1 2,
               FileLine.indexPair 2 0])) :=
  ⟨Or.inl rfl, writeToFile_lines_section closedTri (Or.inl rfl)⟩

/-- C9: on a curve that is not closed, `writeToFile`'s open-curve branch
reads `segments.back()`; the access — and with it the whole serialization —
is defined exactly when the curve has at least one segment, and the
empty open curve hits `back()` of an empty sequence (embedded as `none`). -/
theorem writeToFile_open_back_access (c : MeshEmbeddedCurve)
    (h : c.isClosed = false) :
    ((writeToFile c).isSome ↔ c.segments ≠ [])
    ∧ (c.segments = [] → writeToFile c = none) := by
  constructor
  · cases hgl : c.segments.getLast? with
    | none =>
      have : c.segments = [] := List.getLast?_eq_none_iff.mp hgl
      simp [writeToFile, h, hgl, this]
    | some s =>
      have : c.segments ≠ [] := by
        intro he
        rw [he] at hgl
        cases hgl
      simp [writeToFile, h, hgl, this]
  · intro he
    simp [writeToFile, h, he]

/-- C9 witness: the theorem applied to the empty open curve, where the
serialization is indeed undefined. -/
theorem writeToFile_open_back_access_witness :
    (MeshEmbeddedCurve.empty.isClosed = false)
    ∧ (((writeToFile MeshEmbeddedCurve.empty).isSome
          ↔ MeshEmbeddedCurve.empty.segments ≠ [])
      ∧ (MeshEmbeddedCurve.empty.segments = []
          → writeToFile MeshEmbeddedCurve.empty = none)) :=
  ⟨rfl, writeToFile_open_back_access MeshEmbeddedCurve.empty rfl⟩

/-- C7: from every curve state, `clearCurve` succeeds and resets to the
`Empty` state with zero segments (and in particular not `Closed`). -/
theorem clearCurve_resets (c : MeshEmbeddedCurve) :
    clearCurve c = MeshEmbeddedCurve.empty
    ∧ (clearCurve c).isEmpty = true
    ∧ (clearCurve c).segments = []
    ∧ (clearCurve c).isClosed = false :=
  ⟨rfl, rfl, rfl, rfl⟩

/-- C8: when the locator places the picked point on no face (the null
`FacePtr()`, embedded as `none`), the edit step is a no-op: `tryExtendBack`
is not invoked, the curve keeps its last valid state and the buffer-stale
flag is untouched. -/
theorem userEditPickStep_null_noop (m : Mesh) (c : MeshEmbeddedCurve)
    (b : Bool) :
    userEditPickStep m none c b
      = { curve := c, bufferStale := b, extendInvoked := false } :=
  rfl

/-- C10: after `userEdit` returns, `pick::alwaysEvaluatePick` and the
current ImGui context equal their pre-call values — whatever the nested
loop did — while `enabled` was unconditionally forced to `true` at entry
and is not restored afterwards (the post-call value is whatever the loop
left, starting from `true`). -/
theorem userEdit_globals (body : EditGlobals → EditGlobals) (nc : Nat)
    (g : EditGlobals) :
    (userEdit body nc g).alwaysEvaluatePick = g.alwaysEvaluatePick
    ∧ (userEdit body nc g).currentContext = g.currentContext
    ∧ (userEditPreLoop nc g).enabled = true
    ∧ (userEdit body nc g).enabled = (body (userEditPreLoop nc g)).enabled :=
  ⟨rfl, rfl, rfl, rfl⟩

/-- C4: closing an open curve with at least one full segment whose first
start point and last end point lie in a common face succeeds, appends the
closing segment, and `isClosed()` is `true` immediately afterwards; closing
an already-closed curve fails with `InvalidClosure` and leaves the segment
count unchanged. -/
theorem closeCurve_spec (m : Mesh) (c : MeshEmbeddedCurve)
    (s0 sLast : CurveSegment) (f : Nat) :
    (c.isClosed = false → c.segments.head? = some s0 →
      c.segments.getLast? = some sLast →
      m.sharedFace s0.startPosition sLast.endPosition = some f →
      closeCurve m c
          = Except.ok
              { segments := c.segments
                  ++ [⟨f, sLast.endPosition, s0.startPosition⟩],
                anchor := none, closed := true }
        ∧ (editStepCurve (closeCurve m c) c).isClosed = true
        ∧ (editStepCurve (closeCurve m c) c).segments.length
            = c.segments.length + 1)
    ∧ (c.isClosed = true →
      closeCurve m c = Except.error EditError.InvalidClosure
        ∧ (editStepCurve (closeCurve m c) c).segments.length
            = c.segments.length) := by
  constructor
  · intro hb hh hl hf
    obtain ⟨rest, hseg⟩ : ∃ rest, c.segments = s0 :: rest := by
      cases hs : c.segments with
      | nil => rw [hs] at hh; cases hh
      | cons a r =>
        rw [hs] at hh
        simp only [List.head?_cons, Option.some.injEq] at hh
        subst hh
        exact ⟨r, rfl⟩
    rw [hseg] at hl
    have hok : closeCurve m c
        = Except.ok
            { segments := c.segments
                ++ [⟨f, sLast.endPosition, s0.startPosition⟩],
              anchor := none, closed := true } := by
      simp [closeCurve, hb, hseg, hl, hf]
    refine ⟨hok, ?_, ?_⟩
    · rw [hok]; rfl
    · rw [hok]; simp [editStepCurve]
  · intro hc
    refine ⟨by simp [closeCurve, hc], ?_⟩
    simp [closeCurve, hc, editStepCurve]

/-- C4 witness: the theorem applied to a concrete open two-segment curve
(success branch) and to the concrete closed triangle (failure branch). -/
theorem closeCurve_spec_witness :
    closeCurve meshSample openTwo
        = Except.ok
            { segments := openTwo.segments
                ++ [⟨0, segB.endPosition, segA.startPosition⟩],
              anchor := none, closed := true }
    ∧ (editStepCurve (closeCurve meshSample openTwo) openTwo).isClosed = true
    ∧ (editStepCurve (closeCurve meshSample openTwo) openTwo).segments.length
        = openTwo.segments.length + 1
    ∧ closeCurve meshSample closedTri = Except.error EditError.InvalidClosure
    ∧ (editStepCurve (closeCurve meshSample closedTri) closedTri).segments.length
        = closedTri.segments.length := by
  have h1 := (closeCurve_spec meshSample openTwo segA segB 0).1
    rfl (by decide) (by decide) rfl
  have h2 := (closeCurve_spec meshSample closedTri segA segC 0).2 rfl
  exact ⟨h1.1, h1.2.1, h1.2.2, h2.1, h2.2⟩

/-- C5 counterexample: on a non-empty but closed curve, a pick in face 10 —
which is distinct from and not adjacent to face 2 containing the curve's
back endpoint — does not fail with `DisconnectedPick`: extension of a
closed curve is a silent no-op (spec section 4.3), so the claim as stated
over every non-empty curve is false. -/
theorem tryExtendBack_disconnected_counterexample :
    closedTri.isEmpty = false
    ∧ closedTri.backEndpoint = some (2, segC.endPosition)
    ∧ meshSample.adjacent 2 10 = false
    ∧ tryExtendBack meshSample 10 ⟨5, 5, 5⟩ closedTri
        ≠ Except.error EditError.DisconnectedPick
    ∧ tryExtendBack meshSample 10 ⟨5, 5, 5⟩ closedTri
        = Except.ok closedTri := by
  have hok : tryExtendBack meshSample 10 ⟨5, 5, 5⟩ closedTri
      = Except.ok closedTri := rfl
  refine ⟨rfl, by decide, rfl, ?_, hok⟩
  intro h
  rw [hok] at h
  exact Except.noConfusion h

/-- C5 (amended): for every non-empty *open* curve and every candidate pick
whose face is distinct from and not adjacent to the face containing the
curve's current back endpoint, `tryExtendBack` fails with
`DisconnectedPick` and the segment store is unchanged (on a closed curve
the call is instead a silent no-op, also leaving the store unchanged). -/
theorem tryExtendBack_disconnected (m : Mesh) (f : Nat) (p : Vector3)
    (c : MeshEmbeddedCurve) (bf : Nat) (bp : Vector3)
    (hb : c.isClosed = false)
    (hback : c.backEndpoint = some (bf, bp))
    (hne : f ≠ bf)
    (hadj : m.adjacent bf f = false) :
    tryExtendBack m f p c = Except.error EditError.DisconnectedPick
    ∧ editStepCurve (tryExtendBack m f p c) c = c
    ∧ (editStepCurve (tryExtendBack m f p c) c).segments.length
        = c.segments.length := by
  have herr : tryExtendBack m f p c
      = Except.error EditError.DisconnectedPick := by
    simp [tryExtendBack, hb, hback, hne, hadj]
  exact ⟨herr, by rw [herr]; rfl, by rw [herr]; rfl⟩

/-- C5 witness: the amended theorem applied to the concrete open
two-segment curve, whose back endpoint lies in face 1, and a pick in the
non-adjacent face 10. -/
theorem tryExtendBack_disconnected_witness :
    (openTwo.isClosed = false
      ∧ openTwo.backEndpoint = some (1, segB.endPosition)
      ∧ (10 : Nat) ≠ 1
      ∧ meshSample.adjacent 1 10 = false)
    ∧ (tryExtendBack meshSample 10 ⟨5, 5, 5⟩ openTwo
          = Except.error EditError.DisconnectedPick
      ∧ editStepCurve (tryExtendBack meshSample 10 ⟨5, 5, 5⟩ openTwo) openTwo
          = openTwo
      ∧ (editStepCurve (tryExtendBack meshSample 10 ⟨5, 5, 5⟩ openTwo)
            openTwo).segments.length = openTwo.segments.length) :=
  ⟨⟨rfl, by decide, by decide, rfl⟩,
    tryExtendBack_disconnected meshSample 10 ⟨5, 5, 5⟩ openTwo 1
      segB.endPosition rfl (by decide) (by decide) rfl⟩

/-- The number of removals contributed by the pending anchor: one when an
anchor exists, zero otherwise. -/
def anchorWeight (c : MeshEmbeddedCurve) : Nat :=
  match c.anchor with
  | some _ => 1
  | none => 0

lemma isEmpty_iff (c : MeshEmbeddedCurve) :
    c.isEmpty = true ↔ c.segments = [] ∧ c.anchor = none := by
  cases c with
  | mk segments anchor closed =>
    cases segments <;> cases anchor <;>
      simp [MeshEmbeddedCurve.isEmpty]

lemma removeLastEndpoint_iterate_le (n : Nat) :
    ∀ c : MeshEmbeddedCurve,
      c.segments.length + anchorWeight c ≤ n →
      (removeLastEndpoint^[n] c).isEmpty = true := by
  induction n with
  | zero =>
    intro c hc
    have hseg : c.segments = [] := by
      cases hs : c.segments with
      | nil => rfl
      | cons a r => rw [hs] at hc; simp at hc
    have hanc : c.anchor = none := by
      cases ha : c.anchor with
      | none => rfl
      | some a => rw [hseg] at hc; simp [anchorWeight, ha] at hc
    simp [Function.iterate_zero, isEmpty_iff, hseg, hanc]
  | succ n ih =>
    intro c hc
    rw [Function.iterate_succ_apply]
    apply ih
    cases hs : c.segments with
    | nil =>
      cases ha : c.anchor with
      | none =>
        have : removeLastEndpoint c = c := by
          simp [removeLastEndpoint, hs, ha]
        rw [this, hs]
        simp [anchorWeight, ha]
      | some a =>
        have : removeLastEndpoint c = MeshEmbeddedCurve.empty := by
          simp [removeLastEndpoint, hs, ha]
        rw [this]
        simp [MeshEmbeddedCurve.empty, anchorWeight]
    | cons a r =>
      have : removeLastEndpoint c
          = { segments := c.segments.dropLast, anchor := none,
              closed := false } := by
        simp [removeLastEndpoint, hs]
      rw [this]
      have hlen : c.segments.length = r.length + 1 := by rw [hs]; rfl
      have hdl : c.segments.dropLast.length = r.length := by
        rw [List.length_dropLast, hlen]
        omega
      simp only [hdl, anchorWeight]
      rw [hlen] at hc
      omega

/-- C6: on a curve with k segments, k applications of `removeLastEndpoint`
— plus one more for the pending anchor when one exists — yield the `Empty`
curve with zero segments; on an `Empty` curve the operation is a no-op; and
the operation never transitions the curve into the `Closed` state. -/
theorem removeLastEndpoint_spec (c : MeshEmbeddedCurve) :
    ((removeLastEndpoint^[c.segments.length + anchorWeight c]) c).isEmpty
        = true
    ∧ ((removeLastEndpoint^[c.segments.length + anchorWeight c]) c).segments
        = []
    ∧ (c.isEmpty = true → removeLastEndpoint c = c)
    ∧ (c.isClosed = false → (removeLastEndpoint c).isClosed = false) := by
  have hiter := removeLastEndpoint_iterate_le
    (c.segments.length + anchorWeight c) c (Nat.le_refl _)
  refine ⟨hiter, ((isEmpty_iff _).mp hiter).1, ?_, ?_⟩
  · intro he
    obtain ⟨hseg, hanc⟩ := (isEmpty_iff c).mp he
    simp [removeLastEndpoint, hseg, hanc]
  · intro hb
    cases hs : c.segments with
    | nil =>
      cases ha : c.anchor with
      | none => simpa [removeLastEndpoint, hs, ha] using hb
      | some a => simp [removeLastEndpoint, hs, ha,
          MeshEmbeddedCurve.empty, MeshEmbeddedCurve.isClosed]
    | cons a r =>
      simp [removeLastEndpoint, hs, MeshEmbeddedCurve.isClosed]

/-- C6 witness: the theorem applied to the concrete open two-segment curve
(iterated emptying, never-closed part) and to the empty curve (no-op
part). -/
theorem removeLastEndpoint_spec_witness :
    ((removeLastEndpoint^[openTwo.segments.length + anchorWeight openTwo])
        openTwo).isEmpty = true
    ∧ (MeshEmbeddedCurve.empty.isEmpty = true
        ∧ removeLastEndpoint MeshEmbeddedCurve.empty
            = MeshEmbeddedCurve.empty)
    ∧ (openTwo.isClosed = false
        ∧ (removeLastEndpoint openTwo).isClosed = false) :=
  ⟨(removeLastEndpoint_spec openTwo).1,
    ⟨rfl, (removeLastEndpoint_spec MeshEmbeddedCurve.empty).2.2.1 rfl⟩,
    ⟨rfl, (removeLastEndpoint_spec openTwo).2.2.2 rfl⟩⟩

lemma transferSegments_roundTrip (t u : TransferMap)
    (ss : List CurveSegment)
    (h : ∀ pos ∈ ss.flatMap (fun s => [s.startPosition, s.endPosition]),
      ∃ fq q, t pos = some (fq, q) ∧ ∃ fr, u q = some (fr, pos)) :
    ∃ ss2 ss3, transferSegments t ss = some ss2
      ∧ ss2.length = ss.length
      ∧ transferSegments u ss2 = some ss3
      ∧ ss3.length = ss.length
      ∧ ss3.map (fun s => s.startPosition)
          = ss.map (fun s => s.startPosition)
      ∧ ss3.map (fun s => s.endPosition)
          = ss.map (fun s => s.endPosition) := by
  induction ss with
  | nil => exact ⟨[], [], rfl, rfl, rfl, rfl, rfl, rfl⟩
  | cons s rest ih =>
    obtain ⟨fq1, q1, ht1, fr1, hu1⟩ := h s.startPosition (by simp)
    obtain ⟨fq2, q2, ht2, fr2, hu2⟩ := h s.endPosition (by simp)
    obtain ⟨ss2, ss3, h1, h2, h3, h4, h5, h6⟩ :=
      ih (fun pos hpos =>
        h pos (by simp at hpos ⊢; exact Or.inr (Or.inr hpos)))
    refine ⟨⟨fq1, q1, q2⟩ :: ss2,
      ⟨fr1, s.startPosition, s.endPosition⟩ :: ss3, ?_, ?_, ?_, ?_, ?_, ?_⟩
    · simp [transferSegments, transferSegment, ht1, ht2, h1]
    · simp [h2]
    · simp [transferSegments, transferSegment, hu1, hu2, h3]
    · simp [h4]
    · simp [h5]
    · simp [h6]

/-- C3: when every point of the curve is resolvable on both meshes (the
transfer maps invert each other geometrically on the curve's positions),
transferring the curve from mesh A to mesh B and back — as `getCurve`
followed by `setCurve` does via `copy` / `copyBack` — succeeds and
reproduces a geometrically equivalent curve: same segment count, same
segment ordering, same closedness flag, and the same endpoint positions. -/
theorem transferCurve_roundTrip (t u : TransferMap) (c : MeshEmbeddedCurve)
    (h : ∀ pos ∈ curvePositions c,
      ∃ fq q, t pos = some (fq, q) ∧ ∃ fr, u q = some (fr, pos)) :
    ∃ c2 c3, transferCurve t c = some c2
      ∧ c2.segments.length = c.segments.length
      ∧ c2.isClosed = c.isClosed
      ∧ transferCurve u c2 = some c3
      ∧ c3.segments.length = c.segments.length
      ∧ c3.isClosed = c.isClosed
      ∧ c3.segments.map (fun s => s.startPosition)
          = c.segments.map (fun s => s.startPosition)
      ∧ c3.segments.map (fun s => s.endPosition)
          = c.segments.map (fun s => s.endPosition) := by
  obtain ⟨ss2, ss3, h1, h2, h3, h4, h5, h6⟩ :=
    transferSegments_roundTrip t u c.segments
      (fun pos hpos => h pos (by simp [curvePositions]; left; simpa using hpos))
  cases ha : c.anchor with
  | none =>
    refine ⟨⟨ss2, none, c.closed⟩, ⟨ss3, none, c.closed⟩, ?_, h2, rfl,
      ?_, h4, rfl, h5, h6⟩
    · simp [transferCurve, h1, transferAnchor, ha]
    · simp [transferCurve, h3, transferAnchor]
  | some a =>
    obtain ⟨fq, q, htq, fr, huq⟩ :=
      h a.2 (by simp [curvePositions, ha])
    refine ⟨⟨ss2, some (fq, q), c.closed⟩, ⟨ss3, some (fr, a.2), c.closed⟩,
      ?_, h2, rfl, ?_, h4, rfl, h5, h6⟩
    · simp [transferCurve, h1, transferAnchor, ha, htq]
    · simp [transferCurve, h3, transferAnchor, huq]

/-- A concrete transfer map for the round-trip witness: every position is
located in face 0 at the same coordinates. -/
def idTransfer : TransferMap := fun v => some (0, v)

/-- C3 witness: the theorem applied to the concrete open two-segment curve
with the identity-position transfer map in both directions. -/
theorem transferCurve_roundTrip_witness :
    ∃ c2 c3, transferCurve idTransfer openTwo = some c2
      ∧ c2.segments.length = openTwo.segments.length
      ∧ c2.isClosed = openTwo.isClosed
      ∧ transferCurve idTransfer c2 = some c3
      ∧ c3.segments.length = openTwo.segments.length
      ∧ c3.isClosed = openTwo.isClosed
      ∧ c3.segments.map (fun s => s.startPosition)
          = openTwo.segments.map (fun s => s.startPosition)
      ∧ c3.segments.map (fun s => s.endPosition)
          = openTwo.segments.map (fun s => s.endPosition) :=
  transferCurve_roundTrip idTransfer idTransfer openTwo
    (fun pos _ => ⟨0, pos, rfl, 0, rfl⟩)

end Polyscope
